import Mathlib

/-!
Verification development for the decode-and-evaluate pipeline of the
Seq2Act semantic parser (`src/seq2action_replace/src/py/main.py`).

The Python code is shallowly embedded: Python strings become lists of
characters (`Str`), Python exceptions become an explicit error type
(`PyErr`) threaded through `Except`, and the float divisions in the
accuracy computations become exact rational divisions (the claims under
study only concern ratios such as 0 and 1, on which IEEE doubles and
rationals agree).  External collaborators of the pipeline (the neural
model, the domain oracle, the action-to-logical-form convertors) are
parameters of the embedded functions, exactly as they are opaque callees
in the source.
-/

set_option maxRecDepth 4000

namespace Seq2Act

/-- Characters of a Python string; all strings handled by the pipeline are
treated character-wise, mirroring Python 2 `str` indexing. -/
abbrev Str := List Char

/-- Convert a Lean string literal to the character-list representation. -/
def strL (s : String) : Str := s.data

/-- The runtime errors the embedded code can raise, plus the two
spec-level error kinds (`configurationError`, `formatError`) that the
natural-language specification postulates.  The embedded code itself
never produces the two spec-level kinds; they exist so that claims about
them can be stated and settled. -/
inductive PyErr where
  | valueError
  | indexError
  | typeError
  | zeroDivisionError
  | systemExit (code : Nat)
  | configurationError
  | formatError
  deriving DecidableEq, Repr

instance {ε α : Type} [DecidableEq ε] [DecidableEq α] : DecidableEq (Except ε α) :=
  fun x y =>
    match x, y with
    | .ok a, .ok b => decidable_of_iff (a = b) (by simp)
    | .error a, .error b => decidable_of_iff (a = b) (by simp)
    | .ok _, .error _ => .isFalse (by simp)
    | .error _, .ok _ => .isFalse (by simp)

/-- Python `s.startswith(pre)`. -/
def pyStartsWith (pre s : Str) : Bool := pre.isPrefixOf s

/-- First index at which `pat` occurs as a substring of `s`
(Python `s.find(pat)` when it succeeds). -/
def pyFindSub (pat : Str) : Str → Option Nat
  | [] => if pat.isPrefixOf ([] : Str) then some 0 else none
  | c :: rest =>
      if pat.isPrefixOf (c :: rest) then some 0
      else (pyFindSub pat rest).map (· + 1)

/-- Python `s.index(pat)`: position of the first occurrence, raising
`ValueError` when the substring is absent. -/
def pyIndexSub (pat s : Str) : Except PyErr Nat :=
  match pyFindSub pat s with
  | some k => .ok k
  | none => .error .valueError

/-- Worker for `pyReplace`; the fuel equals the length of the string and
is consumed one unit per examined position. -/
def pyReplaceAux (old new : Str) : Nat → Str → Str
  | _, [] => []
  | 0, s => s
  | fuel + 1, c :: rest =>
      if old.isPrefixOf (c :: rest) then
        new ++ pyReplaceAux old new fuel (rest.drop (old.length - 1))
      else
        c :: pyReplaceAux old new fuel rest

/-- Python `s.replace(old, new)`: every non-overlapping occurrence of
`old` in `s`, scanned left to right, is replaced by `new`.  When `old` is
empty, Python inserts `new` at every position, including both ends. -/
def pyReplace (old new s : Str) : Str :=
  if old = [] then new ++ (s.map (fun c => c :: new)).flatten
  else pyReplaceAux old new s.length s

/-- Worker for `pySplitOn`; fuel as in `pyReplaceAux`. -/
def pySplitOnAux (sep : Str) : Nat → Str → Str → List Str
  | 0, cur, s => [cur ++ s]
  | _ + 1, cur, [] => [cur]
  | fuel + 1, cur, c :: rest =>
      if sep.isPrefixOf (c :: rest) then
        cur :: pySplitOnAux sep fuel [] (rest.drop (sep.length - 1))
      else
        pySplitOnAux sep fuel (cur ++ [c]) rest

/-- Python `s.split(sep)` for a non-empty separator: split at each
leftmost non-overlapping occurrence, keeping empty pieces.  (Python
raises on an empty separator; the pipeline only splits on `' '` and
`':::'`, so that case is mapped to an arbitrary total value.) -/
def pySplitOn (sep s : Str) : List Str :=
  if sep = [] then [s] else pySplitOnAux sep s.length [] s

/-- Python `sep.join(xs)`. -/
def pyJoin (sep : Str) : List Str → Str
  | [] => []
  | [x] => x
  | x :: y :: rest => x ++ sep ++ pyJoin sep (y :: rest)

/-- Python list indexing `xs[i]`, raising `IndexError` out of range. -/
def pyGet (xs : List α) (i : Nat) : Except PyErr α :=
  match xs.get? i with
  | some x => .ok x
  | none => .error .indexError

/-- Python `xs[0]`. -/
def pyHead0 (xs : List α) : Except PyErr α := pyGet xs 0

/-- Python `float(a) / b`: raises `ZeroDivisionError` on a zero
denominator, otherwise the exact ratio (`mkRat a b = (a : Rat) / b`, see
`pyDiv_eq_div`). -/
def pyDiv (a b : Nat) : Except PyErr Rat :=
  if b = 0 then .error .zeroDivisionError else .ok (mkRat a b)

/-- Python dictionary assignment `d[k] = v`: overwrite the entry in place
when the key is present, append it otherwise. -/
def dictInsert (k v : Str) : List (Str × Str) → List (Str × Str)
  | [] => [(k, v)]
  | (k2, v2) :: rest =>
      if k2 = k then (k, v) :: rest else (k2, v2) :: dictInsert k v rest

/-- Python dictionary read `d[k]` / membership `k in d`. -/
def dictLookup (k : Str) : List (Str × Str) → Option Str
  | [] => none
  | (k2, v2) :: rest => if k2 = k then some v2 else dictLookup k rest

/-- A Python loop that maps a fallible body over a list, appending the
results; the first raised exception aborts the whole loop. -/
def pyMapLoop (f : α → Except PyErr β) : List α → Except PyErr (List β)
  | [] => .ok []
  | x :: xs => do
      let y ← f x
      let ys ← pyMapLoop f xs
      .ok (y :: ys)

/-! ### Preprocessing (`preprocess_data`, main.py lines 267-302) -/

/-- The action-token sentinel `add_entity_node:`. -/
def sentinel : Str := strL "add_entity_node:"

/-- The entity separator `:-:` inside action tokens. -/
def sep3 : Str := strL ":-:"

/-- The pair separator `:::` of the entity-lexicon annotation. -/
def colon3 : Str := strL ":::"

/-- One space character, the token separator. -/
def spaceStr : Str := strL " "

/-- One underscore character. -/
def underscoreStr : Str := strL "_"

/-- Loop of main.py lines 277-281: fold the `entity:::surface-name` items
into the dictionary; `parts[1]` raises `IndexError` when an item lacks
the `:::` separator. -/
def parseEntityLexLoop : List Str → List (Str × Str) → Except PyErr (List (Str × Str))
  | [], lex => .ok lex
  | item :: rest, lex => do
      let parts := pySplitOn colon3 item
      let entity ← pyGet parts 0
      let entity_name ← pyGet parts 1
      parseEntityLexLoop rest (dictInsert entity entity_name lex)

/-- main.py lines 274-281: parse the entity-lexicon annotation string of
one raw example into the `entity_lex` dictionary. -/
def parseEntityLexStr (entity_lex_str : Str) : Except PyErr (List (Str × Str)) :=
  if entity_lex_str = [] then .ok []
  else parseEntityLexLoop (pySplitOn spaceStr entity_lex_str) []

/-- Line 279: `parts[0]` of an entity-lexicon item, the entity key. -/
def itemKey (item : Str) : Str := (pySplitOn colon3 item).getD 0 []

/-- Line 280: `parts[1]` of an entity-lexicon item, the surface name. -/
def itemVal (item : Str) : Str := (pySplitOn colon3 item).getD 1 []

/-- main.py lines 286-293, one iteration: relexicalize a single action
token.  A token starting with `add_entity_node:` has the suffix after the
first `:-:` extracted (`.index` raising `ValueError` when absent); when
that entity is a key of the lexicon, Python `str.replace` substitutes
every occurrence of it in the whole token. -/
def relexToken (entity_lex : List (Str × Str)) (y_tok : Str) : Except PyErr Str :=
  if pyStartsWith sentinel y_tok then do
    let idx ← pyIndexSub sep3 y_tok
    let entity := y_tok.drop (idx + 3)
    match dictLookup entity entity_lex with
    | some new_entity => .ok (pyReplace entity new_entity y_tok)
    | none => .ok y_tok
  else .ok y_tok

/-- main.py lines 283-293: relexicalize a whole action-token sequence. -/
def relexTokens (entity_lex : List (Str × Str)) (y_toks : List Str) :
    Except PyErr (List Str) :=
  pyMapLoop (relexToken entity_lex) y_toks

/-- The fields of one preprocessed example that the pipeline derives
itself (the logical form additionally produced by the external
`domain_convertor` is outside the embedded pipeline). -/
structure PreExample where
  x_str : Str
  y_str : Str
  y_new_str : Str
  entity_lex : List (Str × Str)
  deriving DecidableEq, Repr

/-- main.py lines 272-301, one raw `(utterance, action-string,
entity-lexicon-string)` record: parse the lexicon, relexicalize the
space-split action tokens and re-join them.  The subsequent
`domain_convertor` call and `Example` construction consume these values
through external collaborators. -/
def preprocessExample (raw : Str × Str × Str) : Except PyErr PreExample := do
  let (x_str, y_str, entity_lex_str) := raw
  let entity_lex ← parseEntityLexStr entity_lex_str
  let y_toks := pySplitOn spaceStr y_str
  let y_new_toks ← relexTokens entity_lex y_toks
  let y_new_str := pyJoin spaceStr y_new_toks
  .ok ⟨x_str, y_str, y_new_str, entity_lex⟩

/-- main.py lines 271-302: preprocess every raw record; a raised
exception aborts the whole loop, hence the whole run. -/
def preprocess_data (raws : List (Str × Str × Str)) : Except PyErr (List PreExample) :=
  pyMapLoop preprocessExample raws

/-! ### Evaluation (`evaluate` lines 363-428, `print_accuracy_metrics`
lines 318-355) -/

/-- A candidate derivation as consumed by `evaluate`: the fields read in
lines 397-402.  Scores are exact rationals standing in for the floats,
which the evaluation logic never branches on. -/
structure Derivation where
  y_toks : List Str
  y_toks_lf : List Str
  p_list : List Rat
  entity_lex_map : List (Str × Str)
  deriving DecidableEq, Repr

/-- The attributes of a preprocessed `Example` that `evaluate` reads
(the `Example` class itself lives outside this file's source). -/
structure Example where
  x_str : Str
  x_toks : List Str
  y_str : Str
  y_toks : List Str
  y_str_lf : Str
  deriving DecidableEq, Repr

/-- The per-example record built by the body of the loop at lines
386-426: the printed diagnostic values together with the entries appended
to the four accumulator lists. -/
structure ExResult where
  y_pred_toks : List Str
  y_pred_str : Str
  y_pred_str_lf : Str
  is_correct : Bool
  tokens_correct : Nat
  x_len : Nat
  y_len : Nat
  y_str_for_query : Str
  y_pred_str_for_query : Str
  denotation_correct : Option Bool
  deriving DecidableEq, Repr

/-- Line 406: `sum(a == b for a, b in zip(y_pred_toks, ex.y_toks))`. -/
def tokensCorrect (pred ref : List Str) : Nat :=
  (pred.zip ref).countP (fun p => decide (p.1 = p.2))

/-- Lines 411-412: `.replace('_', '').replace(' ', '')`. -/
def stripForQuery (s : Str) : Str :=
  pyReplace spaceStr [] (pyReplace underscoreStr [] s)

/-- Python `len(...)` applied to a value that may be `None` (line 383):
`TypeError` on `None`. -/
def pyLenOfOpt (xs : Option (List Bool)) : Except PyErr Nat :=
  match xs with
  | none => .error .typeError
  | some l => .ok l.length

/-- Lines 390-391 and 397: the predicted token list, empty when the
derivation is `None`. -/
def predToks (d? : Option Derivation) : List Str :=
  match d? with
  | none => []
  | some d => d.y_toks

/-- Lines 392 and 398: the space-joined predicted action string. -/
def predStr (d? : Option Derivation) : Str :=
  match d? with
  | none => []
  | some d => pyJoin spaceStr d.y_toks

/-- Lines 393 and 399-400: the space-joined predicted logical form. -/
def predStrLf (d? : Option Derivation) : Str :=
  match d? with
  | none => []
  | some d => pyJoin spaceStr d.y_toks_lf

/-- The pure values computed by the loop body of lines 386-426 for one
example, given the denotation flag read for it (if any). -/
def evalExampleOk (den : Option Bool) (d? : Option Derivation) (ex : Example) :
    ExResult :=
  ⟨predToks d?, predStr d?, predStrLf d?,
    decide (predStr d? = ex.y_str),
    tokensCorrect (predToks d?) ex.y_toks,
    ex.x_toks.length, ex.y_toks.length,
    stripForQuery ex.y_str_lf, stripForQuery (predStrLf d?),
    den⟩

/-- Lines 424-425: read `denotation_correct_list[i]` when that list is
truthy (in Python, `None` and the empty list are both falsy). -/
def readDen (dcl? : Option (List Bool)) (i : Nat) : Except PyErr (Option Bool) :=
  match dcl? with
  | some (b :: bs) => (pyGet (b :: bs) i).map some
  | _ => .ok none

/-- Loop body, lines 387-426, for example index `i`: build the
prediction fields (empty when the derivation is `None`), compute the
correctness flags, evaluate the printed per-example token accuracy (line
423, a real division raising on an empty reference token list), and read
`denotation_correct_list[i]` when that list is truthy (line 424-425). -/
def evalExample (dcl? : Option (List Bool)) (i : Nat) (d? : Option Derivation)
    (ex : Example) : Except PyErr ExResult := do
  let _ ← pyDiv (tokensCorrect (predToks d?) ex.y_toks) ex.y_toks.length
  let denotation_correct ← readDen dcl? i
  .ok (evalExampleOk denotation_correct d? ex)

/-- The `for i, ex in enumerate(dataset)` loop of lines 386-426, carrying
the running index; `derivs[i]` is a raising list access. -/
def evalLoop (dcl? : Option (List Bool)) (derivs : List (Option Derivation)) :
    Nat → List Example → Except PyErr (List ExResult)
  | _, [] => .ok []
  | i, ex :: rest => do
      let d ← pyGet derivs i
      let r ← evalExample dcl? i d ex
      let rs ← evalLoop dcl? derivs (i + 1) rest
      .ok (r :: rs)

/-- One `{correct, total, accuracy}` block of the statistics. -/
structure AccCounts where
  correct : Nat
  total : Nat
  accuracy : Rat
  deriving DecidableEq, Repr

/-- The `STATS[name]` fragment written by `print_accuracy_metrics`. -/
structure Stats where
  name : Str
  sentence : AccCounts
  token : AccCounts
  denotation : Option AccCounts
  deriving DecidableEq, Repr

/-- Lines 346-355: the denotation block of the statistics, produced only
when `denotation_correct_list` is truthy (a non-empty list); `sum` of the
booleans is the count of `True` entries. -/
def denStats (dcl? : Option (List Bool)) (num_examples : Nat) :
    Except PyErr (Option AccCounts) :=
  match dcl? with
  | some (b :: bs) =>
      (pyDiv ((b :: bs).countP id) num_examples).map
        (fun a => some ⟨(b :: bs).countP id, num_examples, a⟩)
  | _ => .ok none

/-- main.py lines 318-355: aggregate the per-example lists into the
statistics record.  The sequence-level division (line 325) precedes the
token-level one (line 326). -/
def print_accuracy_metrics (name : Str) (is_correct_list : List Bool)
    (tokens_correct_list x_len_list y_len_list : List Nat)
    (dcl? : Option (List Bool)) : Except PyErr Stats := do
  let _ := x_len_list
  let num_examples := is_correct_list.length
  let num_correct := is_correct_list.countP id
  let num_tokens_correct := tokens_correct_list.sum
  let num_tokens := y_len_list.sum
  let seq_accuracy ← pyDiv num_correct num_examples
  let token_accuracy ← pyDiv num_tokens_correct num_tokens
  let denotation? ← denStats dcl? num_examples
  .ok ⟨name, ⟨num_correct, num_examples, seq_accuracy⟩,
        ⟨num_tokens_correct, num_tokens, token_accuracy⟩, denotation?⟩

/-- The domain oracle interface `domain.compare_answers` (line 377), an
external collaborator. -/
abbrev CompareFn :=
  List Str → List Str → List (List (Option Derivation)) →
    List (Option Derivation) × List Bool

/-- What `evaluate` returns in the embedding: the per-example diagnostic
records and the aggregated statistics. -/
structure EvalOutput where
  examples : List ExResult
  stats : Stats
  deriving DecidableEq, Repr

/-- main.py lines 363-428.  The decoder (`decode`, line 357, delegating
to the external model) appears as the function `decodeFn`; the optional
domain oracle as `domain?`.  With an oracle, the per-example candidate
lists, the raw reference strings and the raw reference logical forms are
handed to `compare_answers`; without one, the head of each candidate
list is taken (`[0]`, raising `IndexError` on an empty list) and
`denotation_correct_list` is `None`, so that `len(...)` at line 383
raises `TypeError`. -/
def evaluate (name : Str) (decodeFn : Example → List (Option Derivation))
    (dataset : List Example) (domain? : Option CompareFn) :
    Except PyErr EvalOutput := do
  let (derivs, dcl?) ←
    match domain? with
    | some cmp =>
        let all_derivs := dataset.map decodeFn
        let true_answers := dataset.map (·.y_str)
        let true_answers_lf := dataset.map (·.y_str_lf)
        let r := cmp true_answers true_answers_lf all_derivs
        .ok (r.1, some r.2)
    | none => do
        let derivs ← pyMapLoop pyHead0 (dataset.map decodeFn)
        .ok (derivs, none)
  let _ ← pyLenOfOpt dcl?
  let results ← evalLoop dcl? derivs 0 dataset
  let stats ← print_accuracy_metrics name (results.map (·.is_correct))
      (results.map (·.tokens_correct)) (results.map (·.x_len))
      (results.map (·.y_len)) dcl?
  .ok ⟨results, stats⟩

/-! ### Argument checking (`_parse_args`, main.py lines 187-196) -/

/-- The count of selected domain-specific ontology flags (lines 187-193);
the argparse values are used for truth only, so they appear as `Bool`. -/
def use_domain_ontology_count (use_geo use_atis use_over : Bool) : Nat :=
  (if use_geo then 1 else 0) + (if use_atis then 1 else 0) +
    (if use_over then 1 else 0)

/-- Lines 194-196: reject more than one selected domain ontology with an
error message and `sys.exit(1)`. -/
def checkDomainOntologyArgs (use_geo use_atis use_over : Bool) :
    Except PyErr Unit :=
  if 1 < use_domain_ontology_count use_geo use_atis use_over then
    .error (.systemExit 1)
  else .ok ()

/-- `main()` (line 644) runs `_parse_args()` and only then `run()`, which
loads the datasets: the ontology check gates every later stage. -/
def parseArgsThenLoad (use_geo use_atis use_over : Bool)
    (raws : List (Str × Str × Str)) : Except PyErr (List (Str × Str × Str)) := do
  let _ ← checkDomainOntologyArgs use_geo use_atis use_over
  .ok raws

/-! ### Concrete fixtures used by witnesses and counterexamples -/

/-- A small preprocessed example: utterance `q`, reference action string
`a b`, reference logical form `l_f x`. -/
def exA : Example :=
  ⟨strL "q", [strL "q"], strL "a b", [strL "a", strL "b"], strL "l_f x"⟩

/-- A decoder whose candidate list is always empty. -/
def decodeEmpty : Example → List (Option Derivation) := fun _ => []

/-- A decoder that always produces a single `None` derivation. -/
def decodeNone : Example → List (Option Derivation) := fun _ => [none]

/-- A domain oracle that chooses the `None` derivation and reports an
example denotation-correct exactly when the logical-form string it was
handed is the stripped form `lfx` of `exA`'s reference logical form. -/
def cmpFlagStripped : CompareFn :=
  fun _ true_answers_lf _ => ([none], [decide (true_answers_lf = [strL "lfx"])])

/-- A domain oracle that always chooses the `None` derivation and flags
the single example as denotation-incorrect. -/
def cmpNoneFalse : CompareFn := fun _ _ _ => ([none], [false])

/-- A derivation extending `exA`'s reference tokens by one extra token. -/
def dExtra : Derivation := ⟨[strL "a", strL "b", strL "c"], [], [], []⟩

/-- The loop-body record produced for `dExtra` against `exA`. -/
def rExtra : ExResult :=
  ⟨[strL "a", strL "b", strL "c"], strL "a b c", strL "",
    false, 2, 1, 2, strL "lfx", strL "", none⟩

/-- The statistics record for one sequence-correct example of two
tokens, both token-correct, with no denotation list. -/
def statsOne : Stats :=
  ⟨strL "dev", ⟨1, 1, 1⟩, ⟨2, 2, 1⟩, none⟩

/-! ### Helper lemmas -/

@[simp] theorem ok_bind {ε α β : Type} (a : α) (k : α → Except ε β) :
    (Except.ok a >>= k) = k a := rfl

@[simp] theorem error_bind {ε α β : Type} (e : ε) (k : α → Except ε β) :
    ((Except.error e : Except ε α) >>= k) = .error e := rfl

@[simp] theorem map_ok {ε α β : Type} (f : α → β) (a : α) :
    (Except.ok a : Except ε α).map f = .ok (f a) := rfl

@[simp] theorem map_error {ε α β : Type} (f : α → β) (e : ε) :
    (Except.error e : Except ε α).map f = .error e := rfl

theorem pyDiv_eq_div (a b : Nat) (h : b ≠ 0) :
    pyDiv a b = .ok ((a : Rat) / (b : Rat)) := by
  simp [pyDiv, h, Rat.mkRat_eq_div]

theorem pyDiv_zero (a : Nat) : pyDiv a 0 = .error .zeroDivisionError := by
  simp [pyDiv]

theorem pyDiv_ok_exists (a b : Nat) (h : b ≠ 0) : ∃ q, pyDiv a b = .ok q :=
  ⟨_, pyDiv_eq_div a b h⟩

theorem pyGet_ok {α : Type} {xs : List α} {i : Nat} {x : α}
    (h : xs.get? i = some x) : pyGet xs i = .ok x := by
  rw [List.get?_eq_getElem?] at h
  simp [pyGet, h]

theorem pyMapLoop_ok_of {α β : Type} (f : α → Except PyErr β) (g : α → β) :
    ∀ xs : List α, (∀ x ∈ xs, f x = .ok (g x)) →
      pyMapLoop f xs = .ok (xs.map g)
  | [], _ => rfl
  | x :: xs, h => by
      have hx := h x (by simp)
      have hrest := pyMapLoop_ok_of f g xs (fun y hy => h y (by simp [hy]))
      simp [pyMapLoop, hx, hrest]

theorem pyMapLoop_ok_exists {α β : Type} (f : α → Except PyErr β) :
    ∀ xs : List α, (∀ x ∈ xs, ∃ y, f x = .ok y) →
      ∃ ys, pyMapLoop f xs = .ok ys
  | [], _ => ⟨[], rfl⟩
  | x :: xs, h => by
      obtain ⟨y, hy⟩ := h x (by simp)
      obtain ⟨ys, hys⟩ := pyMapLoop_ok_exists f xs (fun z hz => h z (by simp [hz]))
      exact ⟨y :: ys, by simp [pyMapLoop, hy, hys]⟩

theorem pyMapLoop_error_uniform {α β : Type} (f : α → Except PyErr β)
    (err : PyErr) (hf : ∀ x e, f x = .error e → e = err) :
    ∀ xs : List α, (∃ x ∈ xs, f x = .error err) →
      pyMapLoop f xs = .error err
  | [], h => by simp at h
  | x :: xs, h => by
      cases hx : f x with
      | error e =>
          have := hf x e hx
          subst this
          simp [pyMapLoop, hx]
      | ok y =>
          obtain ⟨z, hz, hze⟩ := h
          rcases List.mem_cons.mp hz with rfl | hz2
          · rw [hx] at hze; exact absurd hze (by simp)
          · have hrest := pyMapLoop_error_uniform f err hf xs ⟨z, hz2, hze⟩
            simp [pyMapLoop, hx, hrest]

theorem pyMapLoop_error_exists {α β : Type} (f : α → Except PyErr β) :
    ∀ xs : List α, (∃ x ∈ xs, ∃ e, f x = .error e) →
      ∃ e, pyMapLoop f xs = .error e
  | [], h => by simp at h
  | x :: xs, h => by
      cases hx : f x with
      | error e => exact ⟨e, by simp [pyMapLoop, hx]⟩
      | ok y =>
          obtain ⟨z, hz, e, hze⟩ := h
          rcases List.mem_cons.mp hz with rfl | hz2
          · rw [hx] at hze; exact absurd hze (by simp)
          · obtain ⟨e2, he2⟩ := pyMapLoop_error_exists f xs ⟨z, hz2, e, hze⟩
            exact ⟨e2, by simp [pyMapLoop, hx, he2]⟩

theorem pyFindSub_add_le (pat : Str) (hpat : pat ≠ []) :
    ∀ (s : Str) (k : Nat), pyFindSub pat s = some k →
      k + pat.length ≤ s.length
  | [], k, h => by
      simp [pyFindSub, List.isPrefixOf_iff_prefix, hpat] at h
  | c :: rest, k, h => by
      by_cases hp : pat.isPrefixOf (c :: rest)
      · simp [pyFindSub, hp] at h
        subst h
        simpa using (List.isPrefixOf_iff_prefix.mp hp).length_le
      · simp [pyFindSub, hp] at h
        obtain ⟨k2, hk2, rfl⟩ := h
        have := pyFindSub_add_le pat hpat rest k2 hk2
        simpa [Nat.succ_add] using Nat.succ_le_succ this

theorem pyReplaceAux_final (old new : Str) (hold : old ≠ []) :
    ∀ (s : Str) (fuel k : Nat), s.length ≤ fuel →
      pyFindSub old s = some k → k + old.length = s.length →
      pyReplaceAux old new fuel s = s.take k ++ new
  | [], fuel, k, _, hf, _ => by
      simp [pyFindSub, List.isPrefixOf_iff_prefix, hold] at hf
  | c :: rest, fuel, k, hfuel, hf, hlen => by
      cases fuel with
      | zero => simp at hfuel
      | succ f =>
          by_cases hp : old.isPrefixOf (c :: rest)
          · simp [pyFindSub, hp] at hf
            subst hf
            simp only [Nat.zero_add] at hlen
            have hdrop : rest.drop (old.length - 1) = [] := by
              apply List.drop_eq_nil_of_le
              simp at hlen
              omega
            simp [pyReplaceAux, hp, hdrop]
          · simp [pyFindSub, hp] at hf
            obtain ⟨k2, hk2, rfl⟩ := hf
            have hrest : pyReplaceAux old new f rest = rest.take k2 ++ new := by
              apply pyReplaceAux_final old new hold rest f k2
              · simpa using Nat.lt_succ_iff.mp (Nat.lt_of_lt_of_le (by simp) hfuel)
              · exact hk2
              · simp at hlen
                omega
            simp [pyReplaceAux, hp, hrest, List.take_succ_cons]

theorem pyReplace_end_occurrence (old new s : Str) (k : Nat) (hold : old ≠ [])
    (hf : pyFindSub old s = some k) (hlen : k + old.length = s.length) :
    pyReplace old new s = s.take k ++ new := by
  simp only [pyReplace, hold, if_false]
  exact pyReplaceAux_final old new hold s s.length k (Nat.le_refl _) hf hlen

theorem pyJoin_append (sep : Str) :
    ∀ (x : Str) (xs : List Str) (y : Str) (ys : List Str),
      pyJoin sep ((x :: xs) ++ y :: ys)
        = pyJoin sep (x :: xs) ++ sep ++ pyJoin sep (y :: ys)
  | x, [], y, ys => by simp [pyJoin]
  | x, x2 :: xs, y, ys => by
      have h2 := pyJoin_append sep x2 xs y ys
      simp only [List.cons_append] at h2 ⊢
      simp [pyJoin, h2, List.append_assoc]

theorem pyJoin_append_ne (sep : Str) (x : Str) (xs : List Str) (y : Str)
    (ys : List Str) (hsep : sep ≠ []) :
    pyJoin sep ((x :: xs) ++ y :: ys) ≠ pyJoin sep (x :: xs) := by
  intro h
  have hl := congrArg List.length h
  rw [pyJoin_append] at hl
  simp only [List.length_append] at hl
  have hs : 0 < sep.length := List.length_pos.mpr hsep
  omega

theorem tokensCorrect_nil_left (ref : List Str) : tokensCorrect [] ref = 0 := by
  simp [tokensCorrect]

theorem tokensCorrect_append_self :
    ∀ (ref extra : List Str), tokensCorrect (ref ++ extra) ref = ref.length
  | [], _ => by simp [tokensCorrect]
  | r :: rs, extra => by
      have := tokensCorrect_append_self rs extra
      simp [tokensCorrect, List.zip, List.countP_cons] at this ⊢
      simpa [tokensCorrect] using this

theorem tokensCorrect_self (ref : List Str) : tokensCorrect ref ref = ref.length := by
  simpa using tokensCorrect_append_self ref []

theorem tokensCorrect_eq_range :
    ∀ pred ref : List Str,
      tokensCorrect pred ref
        = (List.range (min pred.length ref.length)).countP
            (fun i => decide (pred.get? i = ref.get? i))
  | [], ref => by simp [tokensCorrect]
  | p :: ps, [] => by simp [tokensCorrect]
  | p :: ps, r :: rs => by
      have ih := tokensCorrect_eq_range ps rs
      simp only [tokensCorrect, List.zip_cons_cons, List.countP_cons, List.length_cons,
        Nat.succ_min_succ, List.range_succ_eq_map, List.countP_map]
      have hfun : ((fun i => decide ((p :: ps).get? i = (r :: rs).get? i)) ∘ Nat.succ)
          = (fun i => decide (ps.get? i = rs.get? i)) := by
        funext i
        simp
      have hif : (if decide ((p :: ps).get? 0 = (r :: rs).get? 0) = true then 1 else 0)
          = (if decide (p = r) = true then 1 else 0) := by simp
      rw [hfun, ← ih, hif]
      rfl

theorem dictLookup_insert_self (k v : Str) :
    ∀ d : List (Str × Str), dictLookup k (dictInsert k v d) = some v
  | [] => by simp [dictInsert, dictLookup]
  | (k2, v2) :: rest => by
      by_cases h : k2 = k
      · simp [dictInsert, dictLookup, h]
      · simp [dictInsert, dictLookup, h, dictLookup_insert_self k v rest]

theorem dictLookup_insert_ne (k k2 v : Str) (h : k2 ≠ k) :
    ∀ d : List (Str × Str), dictLookup k2 (dictInsert k v d) = dictLookup k2 d
  | [] => by simp [dictInsert, dictLookup, Ne.symm h]
  | (k3, v3) :: rest => by
      by_cases h3 : k3 = k
      · subst h3
        simp [dictInsert, dictLookup, Ne.symm h]
      · by_cases h4 : k3 = k2
        · simp [dictInsert, dictLookup, h3, h4, h]
        · simp [dictInsert, dictLookup, h3, h4, dictLookup_insert_ne k k2 v h rest]

theorem pySplitOnAux_ne_nil (sep : Str) :
    ∀ (fuel : Nat) (cur s : Str), pySplitOnAux sep fuel cur s ≠ []
  | 0, cur, s => by simp [pySplitOnAux]
  | fuel + 1, cur, [] => by simp [pySplitOnAux]
  | fuel + 1, cur, c :: rest => by
      by_cases hp : sep.isPrefixOf (c :: rest)
      · simp [pySplitOnAux, hp]
      · simp only [pySplitOnAux, hp, if_false]
        exact pySplitOnAux_ne_nil sep fuel (cur ++ [c]) rest

theorem pySplitOn_ne_nil (sep s : Str) : pySplitOn sep s ≠ [] := by
  by_cases h : sep = []
  · simp [pySplitOn, h]
  · simp only [pySplitOn, h, if_false]
    exact pySplitOnAux_ne_nil sep s.length [] s

theorem pySplitOnAux_no_match (sep : Str) :
    ∀ (s : Str) (fuel : Nat) (cur : Str), pyFindSub sep s = none →
      s.length ≤ fuel → pySplitOnAux sep fuel cur s = [cur ++ s]
  | [], fuel, cur, _, _ => by
      cases fuel <;> simp [pySplitOnAux]
  | c :: rest, fuel, cur, hfind, hfuel => by
      cases fuel with
      | zero => simp at hfuel
      | succ f =>
          by_cases hp : sep.isPrefixOf (c :: rest)
          · simp [pyFindSub, hp] at hfind
          · have hfr : pyFindSub sep rest = none := by
              cases hfr2 : pyFindSub sep rest with
              | none => rfl
              | some k => simp [pyFindSub, hp, hfr2] at hfind
            have := pySplitOnAux_no_match sep rest f (cur ++ [c]) hfr
              (by simp at hfuel ⊢; omega)
            simp [pySplitOnAux, hp, this]

theorem pySplitOn_single_of_find_none (sep s : Str) (hsep : sep ≠ [])
    (h : pyFindSub sep s = none) : pySplitOn sep s = [s] := by
  simp only [pySplitOn, hsep, if_false]
  simpa using pySplitOnAux_no_match sep s s.length [] h (Nat.le_refl _)

theorem relexToken_not_sentinel (lex : List (Str × Str)) (tok : Str)
    (h : pyStartsWith sentinel tok = false) : relexToken lex tok = .ok tok := by
  simp [relexToken, h]

theorem relexToken_no_sep (lex : List (Str × Str)) (tok : Str)
    (h1 : pyStartsWith sentinel tok = true) (h2 : pyFindSub sep3 tok = none) :
    relexToken lex tok = .error .valueError := by
  simp [relexToken, h1, pyIndexSub, h2]

theorem relexToken_present (lex : List (Str × Str)) (tok : Str) (k : Nat)
    (name : Str) (h1 : pyStartsWith sentinel tok = true)
    (h2 : pyFindSub sep3 tok = some k)
    (h3 : dictLookup (tok.drop (k + 3)) lex = some name) :
    relexToken lex tok = .ok (pyReplace (tok.drop (k + 3)) name tok) := by
  simp [relexToken, h1, pyIndexSub, h2, h3]

theorem relexToken_absent (lex : List (Str × Str)) (tok : Str) (k : Nat)
    (h1 : pyStartsWith sentinel tok = true)
    (h2 : pyFindSub sep3 tok = some k)
    (h3 : dictLookup (tok.drop (k + 3)) lex = none) :
    relexToken lex tok = .ok tok := by
  simp [relexToken, h1, pyIndexSub, h2, h3]

theorem relexToken_error_valueError (lex : List (Str × Str)) (tok : Str)
    (e : PyErr) (h : relexToken lex tok = .error e) : e = .valueError := by
  by_cases h1 : pyStartsWith sentinel tok
  · cases h2 : pyFindSub sep3 tok with
    | none => rw [relexToken_no_sep lex tok h1 h2] at h; simpa using h.symm
    | some k =>
        cases h3 : dictLookup (tok.drop (k + 3)) lex with
        | none => rw [relexToken_absent lex tok k h1 h2 h3] at h; simp at h
        | some name => rw [relexToken_present lex tok k name h1 h2 h3] at h; simp at h
  · rw [relexToken_not_sentinel lex tok (by simpa using h1)] at h
    simp at h

theorem parseEntityLexLoop_cons_good (item : Str) (rest : List Str)
    (lex : List (Str × Str)) (h : 2 ≤ (pySplitOn colon3 item).length) :
    parseEntityLexLoop (item :: rest) lex
      = parseEntityLexLoop rest (dictInsert (itemKey item) (itemVal item) lex) := by
  rcases hp : pySplitOn colon3 item with _ | ⟨p0, _ | ⟨p1, ps⟩⟩
  · rw [hp] at h; simp at h
  · rw [hp] at h; simp at h
  · simp [parseEntityLexLoop, hp, pyGet, itemKey, itemVal]

theorem parseEntityLexLoop_cons_bad (item : Str) (rest : List Str)
    (lex : List (Str × Str)) (h : (pySplitOn colon3 item).length < 2) :
    parseEntityLexLoop (item :: rest) lex = .error .indexError := by
  rcases hp : pySplitOn colon3 item with _ | ⟨p0, _ | ⟨p1, ps⟩⟩
  · exact absurd hp (pySplitOn_ne_nil colon3 item)
  · simp [parseEntityLexLoop, hp, pyGet]
  · rw [hp] at h
    simp at h
    omega

theorem parseEntityLexLoop_error_of_bad :
    ∀ (items : List Str) (lex : List (Str × Str)),
      (∃ item ∈ items, (pySplitOn colon3 item).length < 2) →
      parseEntityLexLoop items lex = .error .indexError
  | [], lex, h => by simp at h
  | item :: rest, lex, h => by
      by_cases hitem : (pySplitOn colon3 item).length < 2
      · exact parseEntityLexLoop_cons_bad item rest lex hitem
      · rw [parseEntityLexLoop_cons_good item rest lex (by omega)]
        obtain ⟨z, hz, hzlen⟩ := h
        rcases List.mem_cons.mp hz with rfl | hz2
        · exact absurd hzlen hitem
        · exact parseEntityLexLoop_error_of_bad rest _ ⟨z, hz2, hzlen⟩

theorem parseEntityLexLoop_ok_of_good :
    ∀ (items : List Str) (lex : List (Str × Str)),
      (∀ item ∈ items, 2 ≤ (pySplitOn colon3 item).length) →
      parseEntityLexLoop items lex
        = .ok (items.foldl (fun l item => dictInsert (itemKey item) (itemVal item) l) lex)
  | [], lex, _ => by simp [parseEntityLexLoop]
  | item :: rest, lex, h => by
      rw [parseEntityLexLoop_cons_good item rest lex (h item (by simp))]
      rw [parseEntityLexLoop_ok_of_good rest _ (fun z hz => h z (by simp [hz]))]
      simp

theorem dictLookup_foldl_not_mem (k : Str) :
    ∀ (items : List Str) (lex : List (Str × Str)),
      (∀ item ∈ items, itemKey item ≠ k) →
      dictLookup k (items.foldl (fun l item => dictInsert (itemKey item) (itemVal item) l) lex)
        = dictLookup k lex
  | [], lex, _ => by simp
  | item :: rest, lex, h => by
      simp only [List.foldl_cons]
      rw [dictLookup_foldl_not_mem k rest _ (fun z hz => h z (by simp [hz]))]
      exact dictLookup_insert_ne (itemKey item) k (itemVal item)
        (Ne.symm (h item (by simp))) lex

theorem dictLookup_foldl_mem :
    ∀ (items : List Str) (lex : List (Str × Str)) (item : Str),
      (items.map itemKey).Nodup → item ∈ items →
      dictLookup (itemKey item)
          (items.foldl (fun l it => dictInsert (itemKey it) (itemVal it) l) lex)
        = some (itemVal item)
  | [], _, item, _, hmem => by simp at hmem
  | hd :: rest, lex, item, hnd, hmem => by
      simp only [List.map_cons, List.nodup_cons] at hnd
      obtain ⟨hhd, hrest⟩ := hnd
      rcases List.mem_cons.mp hmem with rfl | hmem2
      · simp only [List.foldl_cons]
        rw [dictLookup_foldl_not_mem (itemKey item) rest _
            (fun z hz he => hhd (he ▸ List.mem_map_of_mem itemKey hz))]
        exact dictLookup_insert_self _ _ _
      · simp only [List.foldl_cons]
        exact dictLookup_foldl_mem rest _ item hrest hmem2

theorem pyDiv_ok_inv (a b : Nat) (q : Rat) (h : pyDiv a b = .ok q) :
    b ≠ 0 ∧ q = (a : Rat) / (b : Rat) := by
  by_cases hb : b = 0
  · subst hb
    simp [pyDiv] at h
  · rw [pyDiv_eq_div a b hb] at h
    simp at h
    exact ⟨hb, h.symm⟩

theorem evalExample_ok_none (i : Nat) (d? : Option Derivation) (ex : Example)
    (hy : ex.y_toks ≠ []) :
    evalExample none i d? ex = .ok (evalExampleOk none d? ex) := by
  obtain ⟨q, hq⟩ := pyDiv_ok_exists (tokensCorrect (predToks d?) ex.y_toks)
    ex.y_toks.length (fun h0 => hy (List.length_eq_zero.mp h0))
  simp [evalExample, hq, readDen]

theorem evalExample_ok_some (dcl : List Bool) (i : Nat) (b : Bool)
    (d? : Option Derivation) (ex : Example) (hy : ex.y_toks ≠ [])
    (hb : dcl.get? i = some b) :
    evalExample (some dcl) i d? ex = .ok (evalExampleOk (some b) d? ex) := by
  obtain ⟨q, hq⟩ := pyDiv_ok_exists (tokensCorrect (predToks d?) ex.y_toks)
    ex.y_toks.length (fun h0 => hy (List.length_eq_zero.mp h0))
  cases dcl with
  | nil => simp at hb
  | cons b0 bs =>
      have hden : readDen (some (b0 :: bs)) i = .ok (some b) := by
        simp [readDen, pyGet_ok hb]
      simp [evalExample, hq, hden]

theorem evalExample_ok_inv (dcl? : Option (List Bool)) (i : Nat)
    (d? : Option Derivation) (ex : Example) (r : ExResult)
    (h : evalExample dcl? i d? ex = .ok r) :
    ∃ den, r = evalExampleOk den d? ex := by
  unfold evalExample at h
  cases hdiv : pyDiv (tokensCorrect (predToks d?) ex.y_toks) ex.y_toks.length with
  | error e => rw [hdiv] at h; simp at h
  | ok q =>
      rw [hdiv] at h
      cases hden : readDen dcl? i with
      | error e => rw [hden] at h; simp at h
      | ok den =>
          rw [hden] at h
          simp at h
          exact ⟨den, h.symm⟩

theorem evalLoop_ok (dcl : List Bool) (derivs : List (Option Derivation)) :
    ∀ (ds : List Example) (i : Nat),
      (∀ ex ∈ ds, ex.y_toks ≠ []) →
      i + ds.length ≤ derivs.length →
      i + ds.length ≤ dcl.length →
      ∃ rs, evalLoop (some dcl) derivs i ds = .ok rs ∧
        rs.length = ds.length ∧
        ∀ (j : Nat) (ex : Example), ds.get? j = some ex →
          ∃ d b, derivs.get? (i + j) = some d ∧ dcl.get? (i + j) = some b ∧
            rs.get? j = some (evalExampleOk (some b) d ex)
  | [], i, _, _, _ => ⟨[], rfl, rfl, by intro j ex h; simp at h⟩
  | ex :: rest, i, hy, hld, hlc => by
      have hild : i < derivs.length := by simp at hld; omega
      have hilc : i < dcl.length := by simp at hlc; omega
      obtain ⟨d, hd⟩ : ∃ d, derivs.get? i = some d := ⟨_, List.get?_eq_get hild⟩
      obtain ⟨b, hb⟩ : ∃ b, dcl.get? i = some b := ⟨_, List.get?_eq_get hilc⟩
      have hex := evalExample_ok_some dcl i b d ex (hy ex (by simp)) hb
      obtain ⟨rs, hrs, hlen, hchar⟩ := evalLoop_ok dcl derivs rest (i + 1)
        (fun z hz => hy z (by simp [hz]))
        (by simp at hld ⊢; omega) (by simp at hlc ⊢; omega)
      refine ⟨evalExampleOk (some b) d ex :: rs,
        ?_, by simp [hlen], ?_⟩
      · simp [evalLoop, pyGet_ok hd, hex, hrs]
      · intro j ex2 hj
        cases j with
        | zero =>
            simp at hj
            subst hj
            refine ⟨d, b, ?_, ?_, rfl⟩
            · simp only [Nat.add_zero]
              exact hd
            · simp only [Nat.add_zero]
              exact hb
        | succ j2 =>
            simp only [List.get?_cons_succ] at hj
            obtain ⟨d2, b2, h1, h2, h3⟩ := hchar j2 ex2 hj
            have harith : i + (j2 + 1) = i + 1 + j2 := by omega
            exact ⟨d2, b2, by rw [harith]; exact h1, by rw [harith]; exact h2,
              by simpa using h3⟩

theorem print_accuracy_metrics_ok (name : Str) (icl : List Bool)
    (tcl xl yl : List Nat) (dcl? : Option (List Bool))
    (h1 : icl ≠ []) (h2 : yl.sum ≠ 0) :
    print_accuracy_metrics name icl tcl xl yl dcl?
      = .ok ⟨name,
          ⟨icl.countP id, icl.length, (icl.countP id : Rat) / (icl.length : Rat)⟩,
          ⟨tcl.sum, yl.sum, (tcl.sum : Rat) / (yl.sum : Rat)⟩,
          match dcl? with
          | some (b :: bs) =>
              some ⟨(b :: bs).countP id, icl.length,
                ((b :: bs).countP id : Rat) / (icl.length : Rat)⟩
          | _ => none⟩ := by
  have hlen : icl.length ≠ 0 := fun h0 => h1 (List.length_eq_zero.mp h0)
  have hseq := pyDiv_eq_div (icl.countP id) icl.length hlen
  have htok := pyDiv_eq_div tcl.sum yl.sum h2
  have hden : denStats dcl? icl.length
      = .ok (match dcl? with
          | some (b :: bs) =>
              some ⟨(b :: bs).countP id, icl.length,
                ((b :: bs).countP id : Rat) / (icl.length : Rat)⟩
          | _ => none) := by
    cases dcl? with
    | none => simp [denStats]
    | some l =>
        cases l with
        | nil => simp [denStats]
        | cons b bs => simp [denStats, pyDiv_eq_div _ _ hlen]
  simp [print_accuracy_metrics, hseq, htok, hden]

theorem print_accuracy_metrics_token_inv (name : Str) (icl : List Bool)
    (tcl xl yl : List Nat) (dcl? : Option (List Bool)) (s : Stats)
    (h : print_accuracy_metrics name icl tcl xl yl dcl? = .ok s) :
    yl.sum ≠ 0 ∧ s.token.correct = tcl.sum ∧ s.token.total = yl.sum ∧
      s.token.accuracy = (tcl.sum : Rat) / (yl.sum : Rat) := by
  simp only [print_accuracy_metrics] at h
  cases hseq : pyDiv (icl.countP id) icl.length with
  | error e => rw [hseq] at h; simp at h
  | ok q1 =>
      rw [hseq] at h
      cases htok : pyDiv tcl.sum yl.sum with
      | error e => rw [htok] at h; simp at h
      | ok q2 =>
          rw [htok] at h
          cases hden : denStats dcl? icl.length with
          | error e => rw [hden] at h; simp at h
          | ok den =>
              rw [hden] at h
              simp at h
              obtain ⟨hb, hq2⟩ := pyDiv_ok_inv _ _ _ htok
              refine ⟨hb, ?_, ?_, ?_⟩ <;> simp [← h, hq2]

theorem evaluate_domain_ok (name : Str)
    (decodeFn : Example → List (Option Derivation)) (cmp : CompareFn)
    (ds : List Example) (derivs : List (Option Derivation)) (dcl : List Bool)
    (hc : cmp (ds.map (·.y_str)) (ds.map (·.y_str_lf)) (ds.map decodeFn)
      = (derivs, dcl))
    (hne : ds ≠ [])
    (hy : ∀ ex ∈ ds, ex.y_toks ≠ [])
    (hld : ds.length ≤ derivs.length)
    (hlc : ds.length ≤ dcl.length) :
    ∃ out, evaluate name decodeFn ds (some cmp) = .ok out ∧
      out.examples.length = ds.length ∧
      ∀ (j : Nat) (ex : Example), ds.get? j = some ex →
        ∃ d b, derivs.get? j = some d ∧ dcl.get? j = some b ∧
          out.examples.get? j = some (evalExampleOk (some b) d ex) := by
  obtain ⟨rs, hrs, hlen, hchar⟩ := evalLoop_ok dcl derivs ds 0 hy
    (by omega) (by omega)
  have hne2 : rs ≠ [] := by
    intro h0
    rw [h0] at hlen
    exact hne (List.length_eq_zero.mp hlen.symm)
  obtain ⟨ex0, hex0⟩ : ∃ ex0, ds.get? 0 = some ex0 := by
    cases ds with
    | nil => exact absurd rfl hne
    | cons a l => exact ⟨a, rfl⟩
  obtain ⟨d0, b0, hd0, hb0, hr0⟩ := hchar 0 ex0 hex0
  have hr0mem : evalExampleOk (some b0) d0 ex0 ∈ rs := List.get?_mem hr0
  have hy0 : ex0.y_toks.length ≠ 0 :=
    fun h0 => (hy ex0 (List.get?_mem hex0)) (List.length_eq_zero.mp h0)
  have hsum : (rs.map (·.y_len)).sum ≠ 0 := by
    intro h0
    have hmem2 : (evalExampleOk (some b0) d0 ex0).y_len ∈ rs.map (·.y_len) :=
      List.mem_map_of_mem _ hr0mem
    have hle := List.single_le_sum (fun (x : Nat) _ => Nat.zero_le x) _ hmem2
    have : (evalExampleOk (some b0) d0 ex0).y_len = ex0.y_toks.length := rfl
    omega
  have hprint := print_accuracy_metrics_ok name (rs.map (·.is_correct))
    (rs.map (·.tokens_correct)) (rs.map (·.x_len)) (rs.map (·.y_len))
    (some dcl) (by simpa using hne2) hsum
  obtain ⟨stats, hstats⟩ : ∃ stats, print_accuracy_metrics name
      (rs.map (·.is_correct)) (rs.map (·.tokens_correct)) (rs.map (·.x_len))
      (rs.map (·.y_len)) (some dcl) = .ok stats := ⟨_, hprint⟩
  refine ⟨⟨rs, stats⟩, ?_, by simpa using hlen, ?_⟩
  · simp only [evaluate]
    rw [hc]
    simp [pyLenOfOpt, hrs, hstats]
  · intro j ex hj
    obtain ⟨d, b, h1, h2, h3⟩ := hchar j ex hj
    exact ⟨d, b, by simpa using h1, by simpa using h2, by simpa using h3⟩

theorem evaluate_none_error (name : Str)
    (decodeFn : Example → List (Option Derivation)) (ds : List Example) :
    ∃ e, evaluate name decodeFn ds none = .error e := by
  cases hm : pyMapLoop pyHead0 (ds.map decodeFn) with
  | error e => exact ⟨e, by simp [evaluate, hm]⟩
  | ok derivs => exact ⟨.typeError, by simp [evaluate, hm, pyLenOfOpt]⟩

theorem evaluate_none_typeError (name : Str)
    (decodeFn : Example → List (Option Derivation)) (ds : List Example)
    (h : ∀ ex ∈ ds, decodeFn ex ≠ []) :
    evaluate name decodeFn ds none = .error .typeError := by
  have hall : ∀ l ∈ ds.map decodeFn, ∃ y, pyHead0 l = .ok y := by
    intro l hl
    obtain ⟨ex, hex, rfl⟩ := List.mem_map.mp hl
    cases hdl : decodeFn ex with
    | nil => exact absurd hdl (h ex hex)
    | cons a l2 => exact ⟨a, by simp [pyHead0, pyGet, hdl]⟩
  obtain ⟨derivs, hm⟩ := pyMapLoop_ok_exists pyHead0 (ds.map decodeFn) hall
  simp [evaluate, hm, pyLenOfOpt]

theorem evaluate_none_indexError (name : Str)
    (decodeFn : Example → List (Option Derivation)) (ds : List Example)
    (h : ∃ ex ∈ ds, decodeFn ex = []) :
    evaluate name decodeFn ds none = .error .indexError := by
  have huni : ∀ (x : List (Option Derivation)) (e : PyErr),
      pyHead0 x = .error e → e = .indexError := by
    intro x e hx
    cases x with
    | nil =>
        simp [pyHead0, pyGet] at hx
        exact hx.symm
    | cons a l => simp [pyHead0, pyGet] at hx
  have hbad : ∃ x ∈ ds.map decodeFn, pyHead0 x = .error .indexError := by
    obtain ⟨ex, hex, hde⟩ := h
    refine ⟨[], List.mem_map.mpr ⟨ex, hex, hde⟩, ?_⟩
    simp [pyHead0, pyGet]
  have hm := pyMapLoop_error_uniform pyHead0 .indexError huni (ds.map decodeFn) hbad
  simp [evaluate, hm]

theorem evaluate_domain_empty (name : Str)
    (decodeFn : Example → List (Option Derivation)) (cmp : CompareFn) :
    evaluate name decodeFn [] (some cmp) = .error .zeroDivisionError := by
  simp [evaluate, evalLoop, pyLenOfOpt, print_accuracy_metrics, pyDiv]

/-! ### Claim theorems -/

/-- C10: at most one of the three domain-specific ontology flags (geo,
atis, overnight) may be selected: the check of `_parse_args` (lines
187-196) accepts a configuration exactly when at most one flag is
truthy, rejects two or more with an error message and `sys.exit(1)`, and
`main` runs that check before `run` loads any data, so a rejected
configuration never reaches data loading. -/
theorem c10_single_domain_ontology (use_geo use_atis use_over : Bool) :
    (checkDomainOntologyArgs use_geo use_atis use_over = .ok ()
        ↔ use_domain_ontology_count use_geo use_atis use_over ≤ 1)
    ∧ (checkDomainOntologyArgs use_geo use_atis use_over = .error (.systemExit 1)
        ↔ 2 ≤ use_domain_ontology_count use_geo use_atis use_over)
    ∧ ∀ raws : List (Str × Str × Str),
        2 ≤ use_domain_ontology_count use_geo use_atis use_over →
        parseArgsThenLoad use_geo use_atis use_over raws
          = .error (.systemExit 1) := by
  refine ⟨by cases use_geo <;> cases use_atis <;> cases use_over <;> decide,
    by cases use_geo <;> cases use_atis <;> cases use_over <;> decide, ?_⟩
  intro raws h
  cases use_geo <;> cases use_atis <;> cases use_over <;>
    first
    | exact absurd h (by decide)
    | rfl

/-- C10 witness: selecting both the geo and the atis ontology is
rejected before the raw dataset is produced. -/
theorem c10_witness :
    parseArgsThenLoad true true false [(strL "x", strL "y", strL "")]
      = .error (.systemExit 1) :=
  (c10_single_domain_ontology true true false).2.2
    [(strL "x", strL "y", strL "")] (by decide)

/-- C3: with no domain oracle, `evaluate` never completes: it always
raises, and as soon as every per-example candidate list is non-empty the
error is the `TypeError` raised by `len(None)` on the
`denotation_correct_list` debug print (line 383), before any per-example
metric is recorded. -/
theorem c3_no_domain_type_error :
    (∀ (name : Str) (decodeFn : Example → List (Option Derivation))
        (ds : List Example), ∃ e, evaluate name decodeFn ds none = .error e)
    ∧ (∀ (name : Str) (decodeFn : Example → List (Option Derivation))
        (ds : List Example), (∀ ex ∈ ds, decodeFn ex ≠ []) →
        evaluate name decodeFn ds none = .error .typeError) :=
  ⟨evaluate_none_error, evaluate_none_typeError⟩

/-- C3 witness: a one-example dataset whose decode yields one candidate
ends in the `TypeError` of line 383. -/
theorem c3_witness :
    evaluate (strL "dev") decodeNone [exA] none = .error .typeError :=
  c3_no_domain_type_error.2 (strL "dev") decodeNone [exA]
    (by intro ex hex; simp [decodeNone])

/-- C9 (amended): evaluating an empty dataset never emits metrics, but
the failure is not a reported configuration error: with an oracle the
sequence-accuracy division `0/0` (line 325) raises `ZeroDivisionError`
after decoding; without one the `len(None)` print raises `TypeError`.
This holds for every run name. -/
theorem c9_empty_dataset_division_error (name : Str)
    (decodeFn : Example → List (Option Derivation)) (cmp : CompareFn) :
    evaluate name decodeFn [] (some cmp) = .error .zeroDivisionError ∧
    evaluate name decodeFn [] none = .error .typeError :=
  ⟨evaluate_domain_empty name decodeFn cmp,
   evaluate_none_typeError name decodeFn [] (by intro ex hex; simp at hex)⟩

/-- C9 counterexample: on the empty dataset the evaluator raises the
bare `ZeroDivisionError` of the accuracy division, not the
`ConfigurationError` the specification announces. -/
theorem c9_counterexample :
    evaluate (strL "dev") decodeNone [] (some cmpFlagStripped)
        = .error .zeroDivisionError
    ∧ evaluate (strL "dev") decodeNone [] (some cmpFlagStripped)
        ≠ .error .configurationError := by
  constructor
  · decide
  · decide

/-- C9 witness: the division error at a second run name. -/
theorem c9_witness :
    evaluate (strL "train") decodeEmpty [] (some cmpNoneFalse)
      = .error .zeroDivisionError :=
  (c9_empty_dataset_division_error (strL "train") decodeEmpty cmpNoneFalse).1

/-- C6 (amended): parsing the entity-lexicon annotation yields the empty
mapping on the empty string, and otherwise maps each space-separated
`entity:::surface-name` item to an entry keyed by the entity; but an
item lacking the `:::` separator makes `parts[1]` raise an uncaught
`IndexError` — there is no recoverable `FormatError`. -/
theorem c6_parse_entity_lexicon :
    parseEntityLexStr [] = .ok []
    ∧ (∀ (s item : Str), s ≠ [] → item ∈ pySplitOn spaceStr s →
        pyFindSub colon3 item = none →
        parseEntityLexStr s = .error .indexError)
    ∧ (∀ s : Str, s ≠ [] →
        (∀ item ∈ pySplitOn spaceStr s, 2 ≤ (pySplitOn colon3 item).length) →
        ∃ lex, parseEntityLexStr s = .ok lex
          ∧ (((pySplitOn spaceStr s).map itemKey).Nodup →
              ∀ item ∈ pySplitOn spaceStr s,
                dictLookup (itemKey item) lex = some (itemVal item))
          ∧ ∀ k : Str, (∀ item ∈ pySplitOn spaceStr s, itemKey item ≠ k) →
              dictLookup k lex = none) := by
  refine ⟨by simp [parseEntityLexStr], ?_, ?_⟩
  · intro s item hs hmem hfind
    have hlen : (pySplitOn colon3 item).length < 2 := by
      rw [pySplitOn_single_of_find_none colon3 item (by decide) hfind]
      simp
    simp only [parseEntityLexStr, if_neg hs]
    exact parseEntityLexLoop_error_of_bad _ _ ⟨item, hmem, hlen⟩
  · intro s hs hgood
    refine ⟨(pySplitOn spaceStr s).foldl
        (fun l item => dictInsert (itemKey item) (itemVal item) l) [], ?_, ?_, ?_⟩
    · simp only [parseEntityLexStr, if_neg hs]
      exact parseEntityLexLoop_ok_of_good _ [] hgood
    · intro hnd item hmem
      exact dictLookup_foldl_mem _ [] item hnd hmem
    · intro k hk
      rw [dictLookup_foldl_not_mem k _ [] hk]
      simp [dictLookup]

/-- C6 counterexample: an item with no `:::` fails with `IndexError`,
which is not the promised `FormatError`. -/
theorem c6_counterexample :
    parseEntityLexStr (strL "ab") = .error .indexError
    ∧ PyErr.indexError ≠ PyErr.formatError := by
  constructor
  · decide
  · decide

/-- C6 witness: a two-item annotation whose second item lacks the
separator aborts parsing with `IndexError`. -/
theorem c6_witness :
    parseEntityLexStr (strL "tx:::Texas ab") = .error .indexError :=
  c6_parse_entity_lexicon.2.1 (strL "tx:::Texas ab") (strL "ab")
    (by decide) (by decide) (by decide)

/-- C7 (amended): an action token that starts with `add_entity_node:`
but contains no `:-:` makes `y_tok.index` raise an uncaught
`ValueError`; the exception propagates out of the token loop and out of
the `preprocess_data` loop, so the whole run aborts — the token is not
kept verbatim and the example is not degraded to empty fields. -/
theorem c7_malformed_token_aborts :
    (∀ (lex : List (Str × Str)) (tok : Str),
        pyStartsWith sentinel tok = true → pyFindSub sep3 tok = none →
        relexToken lex tok = .error .valueError)
    ∧ (∀ (lex : List (Str × Str)) (ys : List Str),
        (∃ t ∈ ys, pyStartsWith sentinel t = true ∧ pyFindSub sep3 t = none) →
        relexTokens lex ys = .error .valueError)
    ∧ (∀ raws : List (Str × Str × Str),
        (∃ raw ∈ raws, ∃ e, preprocessExample raw = .error e) →
        ∃ e, preprocess_data raws = .error e) := by
  refine ⟨relexToken_no_sep, ?_, ?_⟩
  · intro lex ys h
    obtain ⟨t, ht, h1, h2⟩ := h
    exact pyMapLoop_error_uniform (relexToken lex) .valueError
      (fun x e hx => relexToken_error_valueError lex x e hx) ys
      ⟨t, ht, relexToken_no_sep lex t h1 h2⟩
  · intro raws h
    exact pyMapLoop_error_exists preprocessExample raws h

/-- C7 counterexample: one raw example whose action string is the single
malformed token `add_entity_node:foo` aborts preprocessing with
`ValueError` instead of passing the token through. -/
theorem c7_counterexample :
    preprocess_data [(strL "x", strL "add_entity_node:foo", strL "")]
      = .error .valueError := by decide

/-- C7 witness: the token-level loop aborts on the malformed token. -/
theorem c7_witness :
    relexTokens [] [strL "ok_token", strL "add_entity_node:foo"]
      = .error .valueError :=
  c7_malformed_token_aborts.2.1 [] [strL "ok_token", strL "add_entity_node:foo"]
    ⟨strL "add_entity_node:foo", by decide, by decide, by decide⟩

/-- C1 (amended): on a lexicon hit, relexicalization rewrites the token
with Python `str.replace`, substituting every occurrence of the
entity-id substring in the whole token; this coincides with the claimed
"only the entity-id part changed" exactly when the entity-id's first
occurrence in the token is its final segment after `:-:`.  Tokens whose
entity is absent pass through unchanged, and on a sequence with no
`add_entity_node:` token (every such token also needing a `:-:`, cf. C7)
relexicalization is the identity. -/
theorem c1_relexicalization :
    (∀ (lex : List (Str × Str)) (ys : List Str),
        (∀ t ∈ ys, pyStartsWith sentinel t = false) →
        relexTokens lex ys = .ok ys)
    ∧ (∀ (lex : List (Str × Str)) (tok : Str) (k : Nat) (surname : Str),
        pyStartsWith sentinel tok = true →
        pyFindSub sep3 tok = some k →
        dictLookup (tok.drop (k + 3)) lex = some surname →
        relexToken lex tok = .ok (pyReplace (tok.drop (k + 3)) surname tok))
    ∧ (∀ (lex : List (Str × Str)) (tok : Str) (k : Nat),
        pyStartsWith sentinel tok = true →
        pyFindSub sep3 tok = some k →
        dictLookup (tok.drop (k + 3)) lex = none →
        relexToken lex tok = .ok tok)
    ∧ (∀ (lex : List (Str × Str)) (tok : Str) (k : Nat) (surname : Str),
        pyStartsWith sentinel tok = true →
        pyFindSub sep3 tok = some k →
        dictLookup (tok.drop (k + 3)) lex = some surname →
        tok.drop (k + 3) ≠ [] →
        pyFindSub (tok.drop (k + 3)) tok = some (k + 3) →
        relexToken lex tok = .ok (tok.take (k + 3) ++ surname)) := by
  refine ⟨?_, relexToken_present, relexToken_absent, ?_⟩
  · intro lex ys h
    have := pyMapLoop_ok_of (relexToken lex) id ys
      (fun t ht => relexToken_not_sentinel lex t (h t ht))
    simpa [relexTokens] using this
  · intro lex tok k surname h1 h2 h3 hne hfind
    rw [relexToken_present lex tok k surname h1 h2 h3]
    have hadd := pyFindSub_add_le sep3 (by decide) tok k h2
    have hsl : sep3.length = 3 := by decide
    rw [hsl] at hadd
    have hlen : (k + 3) + (tok.drop (k + 3)).length = tok.length := by
      simp only [List.length_drop]
      omega
    rw [pyReplace_end_occurrence (tok.drop (k + 3)) surname tok (k + 3)
      hne hfind hlen]

/-- C1 counterexample: the token `add_entity_node:a:-:a` with lexicon
`{a ↦ X}` is of the claimed shape (prefix `a`, entity-id `a`, entity in
the lexicon), but `str.replace` rewrites every occurrence of `a`,
producing `Xdd_entity_node:X:-:X` instead of the claimed
`add_entity_node:a:-:X`. -/
theorem c1_counterexample :
    relexTokens [(strL "a", strL "X")] [strL "add_entity_node:a:-:a"]
        = .ok [strL "Xdd_entity_node:X:-:X"]
    ∧ pyStartsWith sentinel (strL "add_entity_node:a:-:a") = true
    ∧ pyFindSub sep3 (strL "add_entity_node:a:-:a") = some 17
    ∧ (strL "add_entity_node:a:-:a").drop (17 + 3) = strL "a"
    ∧ dictLookup (strL "a") [(strL "a", strL "X")] = some (strL "X")
    ∧ strL "Xdd_entity_node:X:-:X" ≠ strL "add_entity_node:a:-:X" := by
  refine ⟨by decide, by decide, by decide, by decide, by decide, by decide⟩

/-- C1 witness: when the entity-id occurs only as the final segment, the
rewrite is exactly the claimed one (the specification's own example). -/
theorem c1_witness :
    relexToken [(strL "tx", strL "Texas")] (strL "add_entity_node:state:-:tx")
        = .ok ((strL "add_entity_node:state:-:tx").take (21 + 3) ++ strL "Texas")
    ∧ (strL "add_entity_node:state:-:tx").take (21 + 3) ++ strL "Texas"
        = strL "add_entity_node:state:-:Texas" :=
  ⟨c1_relexicalization.2.2.2 [(strL "tx", strL "Texas")]
      (strL "add_entity_node:state:-:tx") 21 (strL "Texas")
      (by decide) (by decide) (by decide) (by decide) (by decide),
   by decide⟩

/-- C4: the per-example token-correct count is the number of positions
in the zipped prefix (bounded by the shorter length) where the tokens
agree; the aggregate token accuracy is the summed count divided by the
summed reference lengths; and when every prediction equals its
reference, the count is the full reference length and the aggregate
accuracy is exactly 1. -/
theorem c4_token_accuracy :
    (∀ pred ref : List Str,
        tokensCorrect pred ref
          = (List.range (min pred.length ref.length)).countP
              (fun i => decide (pred.get? i = ref.get? i)))
    ∧ (∀ (name : Str) (icl : List Bool) (tcl xl yl : List Nat)
        (dcl? : Option (List Bool)) (s : Stats),
        print_accuracy_metrics name icl tcl xl yl dcl? = .ok s →
        s.token.correct = tcl.sum ∧ s.token.total = yl.sum ∧
          s.token.accuracy = (tcl.sum : Rat) / (yl.sum : Rat))
    ∧ (∀ ref : List Str, tokensCorrect ref ref = ref.length)
    ∧ (∀ (name : Str) (icl : List Bool) (tcl xl yl : List Nat)
        (dcl? : Option (List Bool)) (s : Stats), tcl = yl →
        print_accuracy_metrics name icl tcl xl yl dcl? = .ok s →
        s.token.accuracy = 1) := by
  refine ⟨tokensCorrect_eq_range, ?_, tokensCorrect_self, ?_⟩
  · intro name icl tcl xl yl dcl? s h
    obtain ⟨h0, h1, h2, h3⟩ :=
      print_accuracy_metrics_token_inv name icl tcl xl yl dcl? s h
    exact ⟨h1, h2, h3⟩
  · intro name icl tcl xl yl dcl? s heq h
    obtain ⟨h0, h1, h2, h3⟩ :=
      print_accuracy_metrics_token_inv name icl tcl xl yl dcl? s h
    subst heq
    rw [h3, div_self (by exact_mod_cast h0)]

/-- C4 witness: one example, prediction equal to the two-token
reference: the metrics record has token accuracy exactly 1. -/
theorem c4_witness :
    print_accuracy_metrics (strL "dev") [true] [2] [1] [2] none = .ok statsOne
    ∧ statsOne.token.accuracy = 1 :=
  ⟨by decide,
   c4_token_accuracy.2.2.2 (strL "dev") [true] [2] [1] [2] none statsOne rfl
     (by decide)⟩

/-- C5: an example is sequence-correct iff the space-joined prediction
equals the reference action string exactly; a prediction extending the
reference by extra tokens is not sequence-correct even though its zipped
token count equals the full reference length (per-example token accuracy
1). -/
theorem c5_sequence_exact_match :
    (∀ (dcl? : Option (List Bool)) (i : Nat) (d? : Option Derivation)
        (ex : Example) (r : ExResult),
        evalExample dcl? i d? ex = .ok r →
        (r.is_correct = true ↔ r.y_pred_str = ex.y_str))
    ∧ (∀ (dcl? : Option (List Bool)) (i : Nat) (d : Derivation) (ex : Example)
        (extra : List Str) (r : ExResult),
        ex.y_str = pyJoin spaceStr ex.y_toks →
        d.y_toks = ex.y_toks ++ extra →
        ex.y_toks ≠ [] → extra ≠ [] →
        evalExample dcl? i (some d) ex = .ok r →
        r.is_correct = false ∧ r.tokens_correct = ex.y_toks.length ∧
          (r.tokens_correct : Rat) / (r.y_len : Rat) = 1) := by
  constructor
  · intro dcl? i d? ex r h
    obtain ⟨den, rfl⟩ := evalExample_ok_inv dcl? i d? ex r h
    simp [evalExampleOk]
  · intro dcl? i d ex extra r hjoin htoks hyne hextra h
    obtain ⟨den, rfl⟩ := evalExample_ok_inv dcl? i (some d) ex r h
    have htc : (evalExampleOk den (some d) ex).tokens_correct
        = ex.y_toks.length := by
      simp only [evalExampleOk, predToks]
      rw [htoks]
      exact tokensCorrect_append_self ex.y_toks extra
    have hyl : (evalExampleOk den (some d) ex).y_len = ex.y_toks.length := rfl
    have hne2 : pyJoin spaceStr (ex.y_toks ++ extra)
        ≠ pyJoin spaceStr ex.y_toks := by
      obtain ⟨y0, ys, hys⟩ : ∃ y0 ys, ex.y_toks = y0 :: ys := by
        cases hx : ex.y_toks with
        | nil => exact absurd hx hyne
        | cons a l => exact ⟨a, l, rfl⟩
      obtain ⟨e0, es, hes⟩ : ∃ e0 es, extra = e0 :: es := by
        cases hx : extra with
        | nil => exact absurd hx hextra
        | cons a l => exact ⟨a, l, rfl⟩
      rw [hys, hes]
      exact pyJoin_append_ne spaceStr y0 ys e0 es (by decide)
    refine ⟨?_, htc, ?_⟩
    · simp only [evalExampleOk, predStr]
      simp only [htoks, hjoin]
      exact decide_eq_false hne2
    · rw [htc, hyl, div_self]
      exact_mod_cast fun h0 => hyne (List.length_eq_zero.mp h0)

/-- C5 witness: the derivation `a b c` against reference `a b`: not
sequence-correct, token count 2 of 2, per-example token accuracy 1. -/
theorem c5_witness :
    rExtra.is_correct = false ∧ rExtra.tokens_correct = exA.y_toks.length ∧
      (rExtra.tokens_correct : Rat) / (rExtra.y_len : Rat) = 1 :=
  c5_sequence_exact_match.2 none 0 dExtra exA [strL "c"] rExtra
    (by decide) (by decide) (by decide) (by decide) (by decide)

/-- C2 (amended): with a domain oracle, an example whose chosen
derivation is `None` is recorded with the empty prediction, counted
sequence-incorrect whenever its reference is non-empty, contributes zero
token matches, and the batch completes without raising (the oracle's own
flag fills the denotation slot).  Without an oracle, a decode failure is
fatal: an empty candidate list raises `IndexError` at `decode(...)[0]`
(line 379), aborting the batch. -/
theorem c2_decode_failure :
    (∀ (name : Str) (decodeFn : Example → List (Option Derivation))
        (cmp : CompareFn) (ds : List Example)
        (derivs : List (Option Derivation)) (dcl : List Bool),
        cmp (ds.map (·.y_str)) (ds.map (·.y_str_lf)) (ds.map decodeFn)
          = (derivs, dcl) →
        ds ≠ [] → (∀ ex ∈ ds, ex.y_toks ≠ []) →
        ds.length ≤ derivs.length → ds.length ≤ dcl.length →
        ∃ out, evaluate name decodeFn ds (some cmp) = .ok out ∧
          ∀ (j : Nat) (ex : Example), ds.get? j = some ex →
            derivs.get? j = some none → ex.y_str ≠ [] →
            ∃ r, out.examples.get? j = some r ∧ r.y_pred_str = [] ∧
              r.is_correct = false ∧ r.tokens_correct = 0)
    ∧ (∀ (name : Str) (decodeFn : Example → List (Option Derivation))
        (ds : List Example), (∃ ex ∈ ds, decodeFn ex = []) →
        evaluate name decodeFn ds none = .error .indexError) := by
  constructor
  · intro name decodeFn cmp ds derivs dcl hc hne hy hld hlc
    obtain ⟨out, hout, hlen, hchar⟩ :=
      evaluate_domain_ok name decodeFn cmp ds derivs dcl hc hne hy hld hlc
    refine ⟨out, hout, ?_⟩
    intro j ex hj hdj hys
    obtain ⟨d, b, h1, h2, h3⟩ := hchar j ex hj
    have hd : d = none := by
      rw [hdj] at h1
      exact (Option.some.inj h1).symm
    subst hd
    refine ⟨evalExampleOk (some b) none ex, h3, rfl, ?_, ?_⟩
    · exact decide_eq_false fun h0 => hys h0.symm
    · rfl
  · intro name decodeFn ds h
    exact evaluate_none_indexError name decodeFn ds h

/-- C2 counterexample: a decoder returning an empty candidate list makes
the oracle-free evaluator raise `IndexError` — a per-example decode
failure does abort the batch, contrary to the claim. -/
theorem c2_counterexample :
    evaluate (strL "dev") decodeEmpty [exA] none = .error .indexError := by
  decide

/-- C2 witness: one example, oracle choosing the `None` derivation: the
evaluation completes and records an empty, incorrect prediction. -/
theorem c2_witness :
    ∃ out, evaluate (strL "dev") decodeNone [exA] (some cmpNoneFalse)
        = .ok out
      ∧ ∃ r, out.examples.get? 0 = some r ∧ r.y_pred_str = []
          ∧ r.is_correct = false ∧ r.tokens_correct = 0 := by
  obtain ⟨out, hout, hrest⟩ :=
    c2_decode_failure.1 (strL "dev") decodeNone cmpNoneFalse [exA] [none] [false]
      rfl (by decide)
      (by intro ex hex; rw [List.mem_singleton] at hex; subst hex; decide)
      (by decide) (by decide)
  exact ⟨out, hout, hrest 0 exA rfl rfl (by decide)⟩

/-- C8 (amended): the strings handed to the domain oracle are the raw
reference action strings and logical forms (`true_answers`,
`true_answers_lf`, lines 375-377), not their stripped forms; the
stripped forms of lines 411-412 are computed per example but stored only
in diagnostic fields, and the recorded per-example denotation flags are
exactly the oracle's flags on the unstripped strings. -/
theorem c8_oracle_receives_unstripped (name : Str)
    (decodeFn : Example → List (Option Derivation)) (cmp : CompareFn)
    (ds : List Example) (derivs : List (Option Derivation)) (dcl : List Bool)
    (hc : cmp (ds.map (·.y_str)) (ds.map (·.y_str_lf)) (ds.map decodeFn)
      = (derivs, dcl))
    (hne : ds ≠ []) (hy : ∀ ex ∈ ds, ex.y_toks ≠ [])
    (hld : ds.length ≤ derivs.length) (hlc : ds.length ≤ dcl.length) :
    ∃ out, evaluate name decodeFn ds (some cmp) = .ok out ∧
      ∀ (j : Nat) (ex : Example), ds.get? j = some ex →
        ∃ r, out.examples.get? j = some r ∧
          r.denotation_correct = dcl.get? j ∧
          r.y_str_for_query = stripForQuery ex.y_str_lf := by
  obtain ⟨out, hout, hlen, hchar⟩ :=
    evaluate_domain_ok name decodeFn cmp ds derivs dcl hc hne hy hld hlc
  refine ⟨out, hout, ?_⟩
  intro j ex hj
  obtain ⟨d, b, h1, h2, h3⟩ := hchar j ex hj
  refine ⟨evalExampleOk (some b) d ex, h3, ?_, rfl⟩
  rw [h2]
  rfl

/-- C8 counterexample: an oracle that reports "correct" exactly when it
is handed the stripped logical form `lfx` records the example as
incorrect, because `evaluate` actually hands it the unstripped
`l_f x`; had the stripped form been passed, the flag would have been
true. -/
theorem c8_counterexample :
    (evaluate (strL "dev") decodeNone [exA] (some cmpFlagStripped)).map
        (fun o => o.examples.map (·.denotation_correct)) = .ok [some false]
    ∧ (cmpFlagStripped [exA.y_str] [stripForQuery exA.y_str_lf]
        [decodeNone exA]).2 = [true]
    ∧ stripForQuery exA.y_str_lf ≠ exA.y_str_lf := by
  refine ⟨by decide, by decide, by decide⟩

/-- C8 witness: the oracle flags land unchanged in the per-example
records, and the stripped form sits in the diagnostic field. -/
theorem c8_witness :
    ∃ out, evaluate (strL "dev") decodeNone [exA] (some cmpFlagStripped)
        = .ok out
      ∧ ∃ r, out.examples.get? 0 = some r ∧ r.denotation_correct = some false
          ∧ r.y_str_for_query = strL "lfx" := by
  obtain ⟨out, hout, hrest⟩ :=
    c8_oracle_receives_unstripped (strL "dev") decodeNone cmpFlagStripped
      [exA] [none] [false] rfl (by decide)
      (by intro ex hex; rw [List.mem_singleton] at hex; subst hex; decide)
      (by decide) (by decide)
  obtain ⟨r, hr, hden, hq⟩ := hrest 0 exA rfl
  exact ⟨out, hout, r, hr, by rw [hden]; rfl, by rw [hq]; decide⟩

end Seq2Act
